import Mathlib

/-!
Verification development for the knowledge-graph extraction pipeline in
`main.py` (class `KnowledgeGraphGenerator`).

The core consists of three parts, embedded below:

* the chunking loop of `create_triples_from_text`
  (`for i in range(0, len(text), chunk_size): chunk = text[i:i+chunk_size]`),
  embedded as `create_chunks` over `List Char`;
* the per-sentence triple extraction (subjects = tokens whose `dep_` contains
  `"subj"`, objects = tokens whose `dep_` contains `"obj"`, nested loops over
  the Cartesian product with `verb = sent.root`), embedded as `sentenceTriples`
  and `extract`;
* the persistence layer `append_triples_to_json` over an explicit durable
  state (`StoreFile`), together with the `clear` in `main`
  (`os.remove(OUTPUT_PATH)`) and the final read of the persisted file
  (`load_all`).

External effects (arxiv download, PyMuPDF text read, the spaCy parser) are
modelled as `Except`-valued oracles supplied in a `PaperEnv`, so that the
`try/except` in `process_single_paper` can be stated and proved about.
-/

/-- Python substring containment of `needle` at the head of `hay`. -/
def startsWith : List Char → List Char → Bool
  | [], _ => true
  | _ :: _, [] => false
  | a :: as, b :: bs => a == b && startsWith as bs

/-- Python's `needle in hay` on strings, over `List Char`. -/
def hasSubstr (needle : List Char) : List Char → Bool
  | [] => startsWith needle []
  | b :: bs => startsWith needle (b :: bs) || hasSubstr needle bs

/-- A spaCy token as the extractor uses it: surface text, dependency tag
`dep_`, lemma `lemma_`, and the token's `subtree` (the token together with all
its syntactic dependents, in original left-to-right order). -/
inductive Token where
  | mk (text : String) (dep_ : String) (lemma_ : String) (subtree : List Token)

def Token.text : Token → String
  | Token.mk t _ _ _ => t

def Token.dep_ : Token → String
  | Token.mk _ d _ _ => d

def Token.lemma_ : Token → String
  | Token.mk _ _ l _ => l

def Token.subtree : Token → List Token
  | Token.mk _ _ _ s => s

/-- A parsed sentence from `doc.sents`: its tokens in order and its root. -/
structure Sentence where
  tokens : List Token
  root : Token

/-- The `paper_info` dictionary built in `process_single_paper`. -/
structure PaperInfo where
  title : String
  url : String
deriving DecidableEq

/-- One record appended to `triples` in `create_triples_from_text`. -/
structure Triple where
  subject : String
  predicate : String
  object : String
  source_title : String
  source_url : String
deriving DecidableEq

/-- `subjects = [tok for tok in sent if "subj" in tok.dep_]` (line 79). -/
def subjectsOf (sent : Sentence) : List Token :=
  sent.tokens.filter (fun tok => hasSubstr "subj".toList tok.dep_.toList)

/-- `objects = [tok for tok in sent if "obj" in tok.dep_]` (line 80). -/
def objectsOf (sent : Sentence) : List Token :=
  sent.tokens.filter (fun tok => hasSubstr "obj".toList tok.dep_.toList)

/-- The dictionary built in the inner loop body (lines 85-93):
`subject_phrase`/`object_phrase` are the space-joined subtree texts and the
predicate is `verb.lemma_`. -/
def mkTriple (sub obj verb : Token) (paper_info : PaperInfo) : Triple :=
  { subject := String.intercalate " " (sub.subtree.map Token.text)
    predicate := verb.lemma_
    object := String.intercalate " " (obj.subtree.map Token.text)
    source_title := paper_info.title
    source_url := paper_info.url }

/-- The body of `for sent in doc.sents` (lines 78-93): if both filtered lists
are non-empty, take `verb = sent.root` and emit one triple per pair of the
Cartesian product, subjects in the outer loop and objects in the inner one. -/
def sentenceTriples (sent : Sentence) (paper_info : PaperInfo) : List Triple :=
  let subjects := subjectsOf sent
  let objects := objectsOf sent
  if subjects.isEmpty || objects.isEmpty then []
  else
    subjects.flatMap (fun sub =>
      objects.map (fun obj => mkTriple sub obj sent.root paper_info))

/-- Triples contributed by one chunk's parsed sentences, concatenated in
sentence order (the `triples.append` accumulation of lines 78-93). -/
def extract (sents : List Sentence) (paper_info : PaperInfo) : List Triple :=
  sents.flatMap (fun sent => sentenceTriples sent paper_info)

/-- The chunk sequence produced by `range(0, len(text), chunk_size)` with a
positive step `k`: `range(0, n, k)` visits `i = j*k` for
`j = 0, 1, ..., ceil(n/k) - 1`, and `text[i:i+k]` is drop-then-take. -/
def create_chunks_pos (text : List Char) (k : Nat) : List (List Char) :=
  (List.range ((text.length + k - 1) / k)).map
    (fun j => (text.drop (j * k)).take k)

/-- The chunking of `create_triples_from_text` (lines 75-76) at any integer
`chunk_size`, with Python's `range` semantics: step `0` raises `ValueError`,
a negative step gives `range(0, len(text), step) = []` (no chunks at all),
and a positive step slices the text left to right. -/
def create_chunks (text : List Char) (chunk_size : Int) :
    Except String (List (List Char)) :=
  if chunk_size = 0 then Except.error "range() arg 3 must not be zero"
  else if chunk_size < 0 then Except.ok []
  else Except.ok (create_chunks_pos text chunk_size.toNat)

/-- `create_triples_from_text` (lines 72-94): chunk the text, parse each chunk
with the (external, fallible) `nlp` oracle, and accumulate the per-sentence
triples across all chunks in order. An exception from `range` (chunk size 0)
or from the parser propagates as `Except.error`. -/
def create_triples_from_text (nlp : List Char → Except String (List Sentence))
    (text : List Char) (paper_info : PaperInfo) (chunk_size : Int) :
    Except String (List Triple) :=
  match create_chunks text chunk_size with
  | Except.error e => Except.error e
  | Except.ok chunks =>
    match chunks.mapM nlp with
    | Except.error e => Except.error e
    | Except.ok docs =>
      Except.ok (docs.flatMap (fun sents => extract sents paper_info))

/-- Durable state of the output file `OUTPUT_PATH`: absent, present but not
parsable as JSON, or present with a parsed list of triples. -/
inductive StoreFile where
  | missing
  | corrupt
  | data (triples : List Triple)
deriving DecidableEq

/-- Filesystem accesses performed by one `append_triples_to_json` call. -/
inductive FsOp where
  | readOp
  | writeOp
deriving DecidableEq

/-- `append_triples_to_json` (lines 96-112) as a transition on the durable
state, also reporting the file operations it performs: return immediately on
an empty batch; otherwise start from `existing_data = []`, read the file only
if it exists (a `json.JSONDecodeError` is swallowed by the `except`, leaving
`existing_data = []`), extend with `new_triples`, and rewrite the whole file. -/
def append_triples_to_json (state : StoreFile) (new_triples : List Triple) :
    StoreFile × List FsOp :=
  if new_triples.isEmpty then (state, [])
  else
    let readStep : List Triple × List FsOp :=
      match state with
      | StoreFile.missing => ([], [])
      | StoreFile.corrupt => ([], [FsOp.readOp])
      | StoreFile.data existing => (existing, [FsOp.readOp])
    (StoreFile.data (readStep.1 ++ new_triples), readStep.2 ++ [FsOp.writeOp])

/-- The final read of the persisted collection (lines 187-189): a missing file
yields no data, a parse failure raises, otherwise the stored list is returned. -/
def load_all : StoreFile → Except String (List Triple)
  | StoreFile.missing => Except.ok []
  | StoreFile.corrupt => Except.error "JSONDecodeError"
  | StoreFile.data ts => Except.ok ts

/-- The reset in `main` (lines 135-136): `os.remove(OUTPUT_PATH)` if it
exists, leaving no persisted collection either way. -/
def clear : StoreFile → StoreFile := fun _ => StoreFile.missing

/-- Merging a sequence of batches in order, one `append_triples_to_json` call
per batch, as the per-document loop of `main` (lines 158-181) does. -/
def mergeAll (batches : List (List Triple)) (state : StoreFile) : StoreFile :=
  batches.foldl (fun s b => (append_triples_to_json s b).1) state

/-- Python whitespace for `re.sub` with pattern backslash-s-plus. -/
def isPyWs (c : Char) : Bool :=
  c == ' ' || c == '\t' || c == '\n' || c == '\r' || c == '\x0b' || c == '\x0c'

/-- Helper for `squashWs`: `prevWs` records whether the previous character was
whitespace, so a whitespace run emits a single space at its first character. -/
def squashWsAux (prevWs : Bool) : List Char → List Char
  | [] => []
  | c :: cs =>
    if isPyWs c then
      (if prevWs then [] else [' ']) ++ squashWsAux true cs
    else c :: squashWsAux false cs

/-- `re.sub` with pattern backslash-s-plus and replacement `" "`: each maximal
run of whitespace becomes a single space. -/
def squashWs (l : List Char) : List Char := squashWsAux false l

/-- `.replace` of the two-character string dash-newline by the empty string:
left-to-right removal of non-overlapping occurrences. -/
def removeDashNl : List Char → List Char
  | '-' :: '\n' :: rest => removeDashNl rest
  | c :: rest => c :: removeDashNl rest
  | [] => []

/-- `re.sub(r'[\\/*?:"<>|]', "", title)` (line 50). -/
def safe_title (title : List Char) : List Char :=
  title.filter (fun c =>
    !(c == '\\' || c == '/' || c == '*' || c == '?' || c == ':' ||
      c == '"' || c == '<' || c == '>' || c == '|'))

/-- An arxiv search result as `process_single_paper` consumes it. -/
structure PaperResult where
  title : String
  entry_id : String

/-- Outcomes of the external collaborators one `process_single_paper` call
touches: whether the PDF is already on disk, the download outcome, the PyMuPDF
page-text read outcome, and the spaCy parse oracle. -/
structure PaperEnv where
  pdf_exists : Bool
  download : Except String Unit
  fitz_text : Except String (List Char)
  nlp : List Char → Except String (List Sentence)

/-- `extract_text_from_pdf` (lines 64-70): on a successful read, normalise
whitespace and strip dash-newline; any exception is caught and yields `""`. -/
def extract_text_from_pdf (env : PaperEnv) : List Char :=
  match env.fitz_text with
  | Except.ok raw => removeDashNl (squashWs raw)
  | Except.error _ => []

/-- The `try` body of `process_single_paper` (lines 49-60): download unless
the PDF already exists, read its text, return `[]` on empty text, otherwise
run `create_triples_from_text` at the default `chunk_size=50000`. -/
def process_single_paper_body (env : PaperEnv) (paper : PaperResult) :
    Except String (List Triple) :=
  match (if env.pdf_exists then Except.ok () else env.download) with
  | Except.error e => Except.error e
  | Except.ok _ =>
    let paper_info : PaperInfo := { title := paper.title, url := paper.entry_id }
    let text := extract_text_from_pdf env
    if text = [] then Except.ok []
    else create_triples_from_text env.nlp text paper_info 50000

/-- `process_single_paper` (lines 47-62): the whole body runs inside
`try: ... except Exception: return []`. -/
def process_single_paper (env : PaperEnv) (paper : PaperResult) : List Triple :=
  match process_single_paper_body env paper with
  | Except.ok ts => ts
  | Except.error _ => []

/-! Concrete sample data used to instantiate the theorems below. -/

/-- A sample provenance record. -/
def infoW : PaperInfo := { title := "T", url := "U" }

/-- A sentence with one subject-like token and no object-like token. -/
def sentNoObj : Sentence :=
  { tokens := [Token.mk "Cats" "nsubj" "cat" [Token.mk "Cats" "nsubj" "cat" []]]
    root := Token.mk "sleep" "ROOT" "sleep" [] }

/-- A sentence with two subject-like and two object-like tokens. -/
def sentW : Sentence :=
  { tokens :=
      [Token.mk "Alice" "nsubj" "alice" [Token.mk "Alice" "nsubj" "alice" []]
      , Token.mk "Bob" "nsubjpass" "bob" [Token.mk "Bob" "nsubjpass" "bob" []]
      , Token.mk "saw" "ROOT" "see" []
      , Token.mk "dog" "dobj" "dog"
          [Token.mk "the" "det" "the" [], Token.mk "dog" "dobj" "dog" []]
      , Token.mk "cat" "pobj" "cat" [Token.mk "cat" "pobj" "cat" []]]
    root := Token.mk "saw" "ROOT" "see" [] }

/-- A sample triple. -/
def tripleW : Triple :=
  { subject := "s", predicate := "p", object := "o"
    source_title := "t", source_url := "u" }

/-- An environment in which the PDF download fails. -/
def envFailW : PaperEnv :=
  { pdf_exists := false
    download := Except.error "HTTPError"
    fitz_text := Except.error "FileNotFoundError"
    nlp := fun _ => Except.ok [] }

/-- A sample search result. -/
def paperW : PaperResult :=
  { title := "A Paper", entry_id := "http://arxiv.org/abs/1" }

/-! Helper lemmas. -/

lemma append_empty_batch (s : StoreFile) : append_triples_to_json s [] = (s, []) := rfl

lemma append_data_batch (ts B : List Triple) (hB : B.isEmpty = false) :
    (append_triples_to_json (StoreFile.data ts) B).1 = StoreFile.data (ts ++ B) := by
  simp [append_triples_to_json, hB]

lemma append_missing_batch (B : List Triple) (hB : B.isEmpty = false) :
    (append_triples_to_json StoreFile.missing B).1 = StoreFile.data B := by
  simp [append_triples_to_json, hB]

lemma mergeAll_cons (b : List Triple) (bs : List (List Triple)) (s : StoreFile) :
    mergeAll (b :: bs) s = mergeAll bs (append_triples_to_json s b).1 := rfl

lemma mergeAll_from_data (batches : List (List Triple))
    (h : ∀ b ∈ batches, b ≠ []) :
    ∀ ts, mergeAll batches (StoreFile.data ts) = StoreFile.data (ts ++ batches.flatten) := by
  induction batches with
  | nil => intro ts; simp [mergeAll]
  | cons b bs ih =>
    intro ts
    have hb : b.isEmpty = false := List.isEmpty_eq_false.mpr (h b (by simp))
    rw [mergeAll_cons, append_data_batch _ _ hb,
      ih (fun x hx => h x (by simp [hx]))]
    simp

lemma sentenceTriples_of_ne (sent : Sentence) (paper_info : PaperInfo)
    (hS : subjectsOf sent ≠ []) (hO : objectsOf sent ≠ []) :
    sentenceTriples sent paper_info =
      (subjectsOf sent).flatMap (fun sub =>
        (objectsOf sent).map (fun obj => mkTriple sub obj sent.root paper_info)) := by
  simp [sentenceTriples, List.isEmpty_eq_false.mpr hS, List.isEmpty_eq_false.mpr hO]

lemma extract_singleton (sent : Sentence) (paper_info : PaperInfo) :
    extract [sent] paper_info = sentenceTriples sent paper_info := by
  simp [extract]

lemma flatMap_map_length {α β γ : Type} (S : List α) (O : List β) (f : α → β → γ) :
    (S.flatMap (fun a => O.map (f a))).length = S.length * O.length := by
  induction S with
  | nil => simp
  | cons a as ih =>
    simp only [List.flatMap_cons, List.length_append, List.length_map, ih,
      List.length_cons]
    ring

lemma flatMap_map_getElem {α β γ : Type} (S : List α) (O : List β) (f : α → β → γ) :
    ∀ i j (hi : i < S.length) (hj : j < O.length),
      (S.flatMap (fun a => O.map (f a)))[i * O.length + j]? =
        some (f (S.get ⟨i, hi⟩) (O.get ⟨j, hj⟩)) := by
  induction S with
  | nil => intro i j hi _; exact absurd hi (by simp)
  | cons a as ih =>
    intro i j hi hj
    cases i with
    | zero =>
      simp only [List.flatMap_cons]
      rw [List.getElem?_append]
      simp only [List.length_map, Nat.zero_mul, Nat.zero_add, hj, if_pos,
        List.getElem?_map, List.getElem?_eq_getElem hj]
      simp [List.get]
    | succ i' =>
      simp only [List.flatMap_cons]
      rw [List.getElem?_append_right (by
        simp only [List.length_map]
        calc O.length ≤ i' * O.length + O.length := by omega
        _ ≤ (i' + 1) * O.length + j := by rw [Nat.succ_mul]; omega)]
      have hidx : (i' + 1) * O.length + j - (O.map (f a)).length =
          i' * O.length + j := by
        simp only [List.length_map, Nat.succ_mul]
        omega
      rw [hidx, ih i' j (by simpa using hi) hj]
      rfl

lemma create_chunks_pos_nil (k : Nat) : create_chunks_pos [] k = [] := by
  unfold create_chunks_pos
  have h : ((([] : List Char)).length + k - 1) / k = 0 := by
    rcases Nat.eq_zero_or_pos k with hk | hk
    · subst hk; simp
    · simp only [List.length_nil, Nat.zero_add]
      exact Nat.div_eq_of_lt (by omega)
  rw [h]
  rfl

lemma ceil_div_cons (k : Nat) (hk : 0 < k) (n : Nat) (hn : 0 < n) :
    (n + k - 1) / k = ((n - k) + k - 1) / k + 1 := by
  have e1 : n + k - 1 = (n - 1) + k := by omega
  rw [e1, Nat.add_div_right _ hk]
  rcases le_or_lt k n with h | h
  · have e2 : n - k + k - 1 = n - 1 := by omega
    rw [e2]
  · have e2 : n - k = 0 := by omega
    rw [e2]
    have e3 : (0 + k - 1) / k = 0 := Nat.div_eq_of_lt (by omega)
    have e4 : (n - 1) / k = 0 := Nat.div_eq_of_lt (by omega)
    rw [e3, e4]

lemma create_chunks_pos_cons (k : Nat) (hk : 0 < k) (t : List Char) (ht : t ≠ []) :
    create_chunks_pos t k = t.take k :: create_chunks_pos (t.drop k) k := by
  have hn : 0 < t.length := List.length_pos.mpr ht
  unfold create_chunks_pos
  rw [List.length_drop, ceil_div_cons k hk t.length hn, List.range_succ_eq_map,
    List.map_cons, List.map_map]
  congr 1
  · simp
  · congr 1
    funext j
    simp only [Function.comp_apply, List.drop_drop]
    rw [Nat.succ_mul, Nat.add_comm (j * k) k]

lemma create_chunks_pos_flatten (k : Nat) (hk : 0 < k) :
    ∀ (n : Nat) (t : List Char), t.length ≤ n →
      (create_chunks_pos t k).flatten = t := by
  intro n
  induction n with
  | zero =>
    intro t ht
    rw [List.eq_nil_of_length_eq_zero (Nat.le_zero.mp ht), create_chunks_pos_nil]
    rfl
  | succ n ih =>
    intro t ht
    by_cases h : t = []
    · rw [h, create_chunks_pos_nil]; rfl
    · rw [create_chunks_pos_cons k hk t h, List.flatten_cons,
        ih (t.drop k) (by rw [List.length_drop]; omega), List.take_append_drop]

lemma create_chunks_pos_ne_nil (k : Nat) (hk : 0 < k) :
    ∀ (n : Nat) (t : List Char), t.length ≤ n →
      ∀ c ∈ create_chunks_pos t k, c ≠ [] := by
  intro n
  induction n with
  | zero =>
    intro t ht
    rw [List.eq_nil_of_length_eq_zero (Nat.le_zero.mp ht), create_chunks_pos_nil]
    simp
  | succ n ih =>
    intro t ht
    by_cases h : t = []
    · rw [h, create_chunks_pos_nil]; simp
    · rw [create_chunks_pos_cons k hk t h]
      intro c hc
      rcases List.mem_cons.mp hc with hc | hc
      · subst hc
        have hl : 0 < t.length := List.length_pos.mpr h
        refine List.length_pos.mp ?_
        rw [List.length_take]
        omega
      · exact ih (t.drop k) (by rw [List.length_drop]; omega) c hc

lemma create_chunks_pos_dropLast (k : Nat) (hk : 0 < k) :
    ∀ (n : Nat) (t : List Char), t.length ≤ n →
      ∀ c ∈ (create_chunks_pos t k).dropLast, c.length = k := by
  intro n
  induction n with
  | zero =>
    intro t ht
    rw [List.eq_nil_of_length_eq_zero (Nat.le_zero.mp ht), create_chunks_pos_nil]
    simp
  | succ n ih =>
    intro t ht
    by_cases h : t = []
    · rw [h, create_chunks_pos_nil]; simp
    · rw [create_chunks_pos_cons k hk t h]
      cases hrest : create_chunks_pos (t.drop k) k with
      | nil => simp
      | cons d ds =>
        intro c hc
        rw [List.dropLast_cons₂] at hc
        rcases List.mem_cons.mp hc with hc | hc
        · subst hc
          have hne : t.drop k ≠ [] := by
            intro h0
            rw [h0, create_chunks_pos_nil] at hrest
            exact List.noConfusion hrest
          have hlen : k < t.length := by
            have := List.length_pos.mpr hne
            rw [List.length_drop] at this
            omega
          rw [List.length_take]
          omega
        · have := ih (t.drop k) (by rw [List.length_drop]; omega)
          rw [hrest] at this
          exact this c hc

lemma create_chunks_pos_length (t : List Char) (k : Nat) :
    (create_chunks_pos t k).length = (t.length + k - 1) / k := by
  simp [create_chunks_pos]

lemma extract_all_degenerate (paper_info : PaperInfo) (sents : List Sentence) :
    (∀ sent ∈ sents, subjectsOf sent = [] ∨ objectsOf sent = []) →
    extract sents paper_info = [] := by
  induction sents with
  | nil => intro _; rfl
  | cons s ss ih =>
    intro h
    simp only [extract, List.flatMap_cons]
    have h1 : sentenceTriples s paper_info = [] := by
      rcases h s (by simp) with hs | hs <;> simp [sentenceTriples, hs]
    have h2 : extract ss paper_info = [] := ih (fun x hx => h x (by simp [hx]))
    simp only [extract] at h2
    rw [h1, h2]
    rfl

/-- C1 (Cartesian completeness): for a sentence whose subject-like and
object-like token lists are both non-empty, `extract` on that sentence yields
exactly `k*m` triples, and the triple at position `i*m + j` is built from the
`i`-th subject and `j`-th object (subjects outer, objects inner), with
predicate the root's lemma, the space-joined subtree texts as subject/object
phrases, and provenance copied (see `mkTriple`). -/
theorem extract_cartesian_product (sent : Sentence) (paper_info : PaperInfo)
    (hS : subjectsOf sent ≠ []) (hO : objectsOf sent ≠ []) :
    (extract [sent] paper_info).length =
      (subjectsOf sent).length * (objectsOf sent).length ∧
    ∀ i j (hi : i < (subjectsOf sent).length) (hj : j < (objectsOf sent).length),
      (extract [sent] paper_info)[i * (objectsOf sent).length + j]? =
        some (mkTriple ((subjectsOf sent).get ⟨i, hi⟩)
          ((objectsOf sent).get ⟨j, hj⟩) sent.root paper_info) := by
  rw [extract_singleton, sentenceTriples_of_ne sent paper_info hS hO]
  exact ⟨flatMap_map_length _ _ _, fun i j hi hj => flatMap_map_getElem _ _ _ i j hi hj⟩

/-- Witness for C1 at a concrete sentence with 2 subjects and 2 objects. -/
theorem extract_cartesian_product_witness :
    (subjectsOf sentW ≠ [] ∧ objectsOf sentW ≠ []) ∧
    ((extract [sentW] infoW).length =
      (subjectsOf sentW).length * (objectsOf sentW).length ∧
    ∀ i j (hi : i < (subjectsOf sentW).length) (hj : j < (objectsOf sentW).length),
      (extract [sentW] infoW)[i * (objectsOf sentW).length + j]? =
        some (mkTriple ((subjectsOf sentW).get ⟨i, hi⟩)
          ((objectsOf sentW).get ⟨j, hj⟩) sentW.root infoW)) := by
  have hS : subjectsOf sentW ≠ [] := List.length_pos.mp (by decide)
  have hO : objectsOf sentW ≠ [] := List.length_pos.mp (by decide)
  exact ⟨⟨hS, hO⟩, extract_cartesian_product sentW infoW hS hO⟩

/-- C2 (chunk coverage): for positive `max_size` the chunking succeeds, its
chunks concatenate back to the text, every chunk but possibly the last has
length exactly `max_size`, and empty text yields no chunks. -/
theorem chunks_cover_text (text : List Char) (max_size : Int) (h : 0 < max_size) :
    ∃ cs, create_chunks text max_size = Except.ok cs ∧
      cs.flatten = text ∧
      (∀ c ∈ cs.dropLast, c.length = max_size.toNat) ∧
      (text = [] → cs = []) := by
  have h0 : ¬ max_size = 0 := by omega
  have h1 : ¬ max_size < 0 := by omega
  have hk : 0 < max_size.toNat := by omega
  refine ⟨create_chunks_pos text max_size.toNat, ?_, ?_, ?_, ?_⟩
  · simp [create_chunks, h0, h1]
  · exact create_chunks_pos_flatten _ hk text.length text le_rfl
  · exact create_chunks_pos_dropLast _ hk text.length text le_rfl
  · intro he; rw [he, create_chunks_pos_nil]

/-- Witness for C2 at text `"abc"` and `max_size = 2`. -/
theorem chunks_cover_text_witness :
    (0 : Int) < 2 ∧
    ∃ cs, create_chunks ['a', 'b', 'c'] 2 = Except.ok cs ∧
      cs.flatten = ['a', 'b', 'c'] ∧
      (∀ c ∈ cs.dropLast, c.length = (2 : Int).toNat) ∧
      (['a', 'b', 'c'] = ([] : List Char) → cs = []) :=
  ⟨by decide, chunks_cover_text ['a', 'b', 'c'] 2 (by decide)⟩

/-- C3 (merge monotonicity): merging non-empty batches in order into a cleared
store makes `load_all` return their concatenation in order, and merging an
empty batch leaves `load_all` unchanged. -/
theorem merge_monotone (s0 : StoreFile) (batches : List (List Triple))
    (h : ∀ b ∈ batches, b ≠ []) :
    load_all (mergeAll batches (clear s0)) = Except.ok batches.flatten ∧
    ∀ s : StoreFile, load_all (append_triples_to_json s []).1 = load_all s := by
  constructor
  · show load_all (mergeAll batches StoreFile.missing) = _
    cases batches with
    | nil => rfl
    | cons b bs =>
      have hb : b.isEmpty = false := List.isEmpty_eq_false.mpr (h b (by simp))
      rw [mergeAll_cons, append_missing_batch b hb,
        mergeAll_from_data bs (fun x hx => h x (by simp [hx])) b]
      simp [load_all]
  · intro s
    rw [append_empty_batch]

/-- Witness for C3 at two concrete singleton batches. -/
theorem merge_monotone_witness :
    (∀ b ∈ [[tripleW], [tripleW]], b ≠ []) ∧
    (load_all (mergeAll [[tripleW], [tripleW]] (clear StoreFile.missing)) =
      Except.ok ([[tripleW], [tripleW]] : List (List Triple)).flatten ∧
    ∀ s : StoreFile, load_all (append_triples_to_json s []).1 = load_all s) :=
  ⟨by decide, merge_monotone StoreFile.missing [[tripleW], [tripleW]] (by decide)⟩

/-- C4 counterexample: at the non-positive chunk size `-1` the chunking does
not raise; `range(0, 1, -1)` is empty, so it silently produces no chunks. -/
theorem chunking_negative_no_raise :
    create_chunks ['a'] (-1) = Except.ok [] := rfl

/-- C4 (amended): the chunking raises exactly at `chunk_size = 0` (Python's
`ValueError` from `range`); a negative `chunk_size` silently yields an empty
chunk sequence, and a positive one always succeeds. -/
theorem chunking_raises_iff_zero (text : List Char) (chunk_size : Int) :
    (chunk_size = 0 →
      create_chunks text chunk_size =
        Except.error "range() arg 3 must not be zero") ∧
    (chunk_size < 0 → create_chunks text chunk_size = Except.ok []) ∧
    (0 < chunk_size → ∃ cs, create_chunks text chunk_size = Except.ok cs) := by
  refine ⟨?_, ?_, ?_⟩
  · intro h
    subst h
    rfl
  · intro h
    have h0 : ¬ chunk_size = 0 := by omega
    simp [create_chunks, h0, h]
  · intro h
    have h0 : ¬ chunk_size = 0 := by omega
    have h1 : ¬ chunk_size < 0 := by omega
    refine ⟨create_chunks_pos text chunk_size.toNat, ?_⟩
    simp [create_chunks, h0, h1]

/-- Witness for the amended C4 at chunk size `0`. -/
theorem chunking_raises_iff_zero_witness :
    create_chunks ['a'] 0 = Except.error "range() arg 3 must not be zero" :=
  (chunking_raises_iff_zero ['a'] 0).1 rfl

/-- C5 (corruption recovery): merging a non-empty batch into a corrupt or
missing store does not raise, treats the existing collection as empty, and
leaves exactly the batch persisted. -/
theorem merge_recovers_corrupt (s : StoreFile) (B : List Triple) (hB : B ≠ [])
    (hs : s = StoreFile.corrupt ∨ s = StoreFile.missing) :
    (append_triples_to_json s B).1 = StoreFile.data B ∧
    load_all (append_triples_to_json s B).1 = Except.ok B := by
  have hBe : B.isEmpty = false := List.isEmpty_eq_false.mpr hB
  rcases hs with hs | hs <;> subst hs <;>
    exact ⟨by simp [append_triples_to_json, hBe],
      by simp [append_triples_to_json, hBe, load_all]⟩

/-- Witness for C5 at a corrupt store and a concrete singleton batch. -/
theorem merge_recovers_corrupt_witness :
    ([tripleW] ≠ ([] : List Triple)) ∧
    ((append_triples_to_json StoreFile.corrupt [tripleW]).1 =
        StoreFile.data [tripleW] ∧
      load_all (append_triples_to_json StoreFile.corrupt [tripleW]).1 =
        Except.ok [tripleW]) :=
  ⟨by decide,
    merge_recovers_corrupt StoreFile.corrupt [tripleW] (by decide) (Or.inl rfl)⟩

/-- C6 (empty-input idempotence): `extract` on no sentences returns `[]`, and
`extract` on sentences none of which has both a subject-like and an
object-like token also returns `[]`; both are plain returns, never errors. -/
theorem extract_degenerate_empty (paper_info : PaperInfo)
    (sents : List Sentence)
    (h : ∀ sent ∈ sents, subjectsOf sent = [] ∨ objectsOf sent = []) :
    extract [] paper_info = [] ∧ extract sents paper_info = [] :=
  ⟨rfl, extract_all_degenerate paper_info sents h⟩

/-- Witness for C6 at a concrete sentence with a subject but no object. -/
theorem extract_degenerate_empty_witness :
    (∀ sent ∈ [sentNoObj], subjectsOf sent = [] ∨ objectsOf sent = []) ∧
    (extract [] infoW = [] ∧ extract [sentNoObj] infoW = []) := by
  have hyp : ∀ sent ∈ [sentNoObj], subjectsOf sent = [] ∨ objectsOf sent = [] := by
    intro s hs
    rw [List.mem_singleton] at hs
    subst hs
    right
    rfl
  exact ⟨hyp, extract_degenerate_empty infoW [sentNoObj] hyp⟩

/-- C7 (empty merge is a no-op): merging an empty batch performs no file
operation at all and leaves the durable state, including its existence,
untouched. -/
theorem merge_empty_noop (s : StoreFile) :
    append_triples_to_json s [] = (s, []) := rfl

/-- C8 (clear resets): after `clear`, `load_all` returns the empty sequence,
whatever the prior state was. -/
theorem clear_then_load_empty (s : StoreFile) :
    load_all (clear s) = Except.ok [] := rfl

/-- C9 (implicit chunk shape): for a non-empty text and positive `max_size`,
every produced chunk is non-empty and the number of chunks is
`ceil(len(text) / max_size)`. -/
theorem chunks_count_ceil (text : List Char) (max_size : Int)
    (h1 : 0 < max_size) (_h2 : text ≠ []) :
    ∃ cs, create_chunks text max_size = Except.ok cs ∧
      (∀ c ∈ cs, c ≠ []) ∧
      cs.length = (text.length + max_size.toNat - 1) / max_size.toNat := by
  have h0 : ¬ max_size = 0 := by omega
  have h1' : ¬ max_size < 0 := by omega
  have hk : 0 < max_size.toNat := by omega
  refine ⟨create_chunks_pos text max_size.toNat, ?_, ?_, ?_⟩
  · simp [create_chunks, h0, h1']
  · exact create_chunks_pos_ne_nil _ hk text.length text le_rfl
  · exact create_chunks_pos_length text _

/-- Witness for C9 at a 5-character text and `max_size = 2` (3 chunks). -/
theorem chunks_count_ceil_witness :
    ((0 : Int) < 2 ∧ ['a', 'b', 'c', 'd', 'e'] ≠ ([] : List Char)) ∧
    ∃ cs, create_chunks ['a', 'b', 'c', 'd', 'e'] 2 = Except.ok cs ∧
      (∀ c ∈ cs, c ≠ []) ∧
      cs.length =
        (List.length ['a', 'b', 'c', 'd', 'e'] + (2 : Int).toNat - 1) /
          (2 : Int).toNat :=
  ⟨⟨by decide, by decide⟩,
    chunks_count_ceil ['a', 'b', 'c', 'd', 'e'] 2 (by decide) (by decide)⟩

/-- C10 (per-document isolation): `process_single_paper` returns the body's
triples on success and `[]` whenever the `try` body ends in any exception, so
no internal failure propagates to the caller. -/
theorem process_single_paper_no_raise (env : PaperEnv) (paper : PaperResult) :
    (∀ e, process_single_paper_body env paper = Except.error e →
      process_single_paper env paper = []) ∧
    (∀ ts, process_single_paper_body env paper = Except.ok ts →
      process_single_paper env paper = ts) := by
  constructor <;> intro x hx <;> simp [process_single_paper, hx]

/-- Witness for C10 at an environment whose download raises. -/
theorem process_single_paper_no_raise_witness :
    process_single_paper envFailW paperW = [] :=
  (process_single_paper_no_raise envFailW paperW).1 "HTTPError" rfl
